import Mathlib

/-!
Verification development for the WayLook snapshot-scanning pipeline
(`server.py`).  The pipeline's pure core is embedded shallowly:

* text is modelled as `List Char`;
* the regex search `re.compile(re.escape(keyword), re.IGNORECASE).finditer`
  is modelled by `findOccurrences` (literal case-insensitive search with
  CPython's zero-width-match semantics: an empty pattern matches once at
  every position and the scan advances by one character there);
* HTML parsing (BeautifulSoup/lxml) is an external collaborator: a parsed
  page is a `Doc` carrying the body text as produced by
  `get_text(separator=' ', strip=True)` after toolbar removal, the list of
  script elements, and the list of comment nodes;
* network I/O is an environment `ScanEnv`: the CDX index response and, per
  capture index, the archive fetch outcome (`none` models a raised
  exception, `some r` a response with status code and parsed document);
* the SSE generator `generate` is embedded as a pure function from the
  environment to the list of emitted events.

Whitespace and lowercasing are modelled at the ASCII level (the source
relies on CPython's `\s`, `str.strip` and `re.IGNORECASE`; every claim and
counterexample below only exercises ASCII data).
-/

namespace WayLook

/-- Whitespace test for the ASCII characters matched by the regex class
used in the source (space, tab, newline, carriage return, vertical tab,
form feed). -/
def wsChar (c : Char) : Bool :=
  c == ' ' || c == '\t' || c == '\n' || c == '\r' || c == '\x0b' || c == '\x0c'

/-- Helper for `collapseWs`: the boolean records whether the previous
character was whitespace, so that a maximal whitespace run contributes one
single space. -/
def collapseAux : Bool → List Char → List Char
  | _, [] => []
  | prevWs, c :: rest =>
    if wsChar c then
      if prevWs then collapseAux true rest
      else ' ' :: collapseAux true rest
    else c :: collapseAux false rest

/-- Model of the whitespace collapsing at line 85 of the source: every
maximal run of whitespace characters is replaced by a single space. -/
def collapseWs (l : List Char) : List Char :=
  collapseAux false l

/-- Model of the newline replacement applied to TEXT and JS snippets
(lines 91 and 108 of the source): each newline character becomes a space. -/
def replNl (l : List Char) : List Char :=
  l.map fun c => if c == '\n' then ' ' else c

/-- Model of the edge-whitespace stripping applied to JS and COMMENT
snippets (lines 108 and 130 of the source). -/
def pyStrip (l : List Char) : List Char :=
  ((l.dropWhile wsChar).reverse.dropWhile wsChar).reverse

/-- Boolean test that `pat` occurs at the very start of `l`. -/
def startsWith : List Char → List Char → Bool
  | _, [] => true
  | [], _ :: _ => false
  | c :: cs, d :: ds => c == d && startsWith cs ds

/-- Boolean substring test, used for the archive-domain script filter and
the archive-footer comment filter of the source (and, in theorems, to
express that a snippet contains a piece of text). -/
def containsSub (l pat : List Char) : Bool :=
  match l with
  | [] => startsWith [] pat
  | c :: t => startsWith (c :: t) pat || containsSub t pat

/-- Case-insensitive prefix test: the keyword `k` matches at the start of
the text, comparing characters through `Char.toLower`. -/
def ciPrefix : List Char → List Char → Bool
  | [], _ => true
  | _ :: _, [] => false
  | k :: ks, c :: cs => (k.toLower == c.toLower) && ciPrefix ks cs

/-- Fuelled scan behind `findOccurrences`: starting at position `i`, try
each position from left to right; on a non-empty match advance past it, on
a zero-width match (empty keyword) advance by one position.  The fuel is
always called with at least `hay.length + 1 - i`, which the scan can never
exhaust early. -/
def findAux (hay k : List Char) : Nat → Nat → List (Nat × Nat)
  | _, 0 => []
  | i, fuel + 1 =>
    if hay.length < i then []
    else if ciPrefix k (hay.drop i) then
      if k.isEmpty then (i, i) :: findAux hay k (i + 1) fuel
      else (i, i + k.length) :: findAux hay k (i + k.length) fuel
    else findAux hay k (i + 1) fuel

/-- Model of `re.compile(re.escape(keyword), re.IGNORECASE).finditer(hay)`
from the source: the escaped pattern is a literal, so the search is a
case-insensitive literal substring scan, left to right, non-overlapping,
with CPython's empty-pattern semantics. -/
def findOccurrences (hay k : List Char) : List (Nat × Nat) :=
  findAux hay k 0 (hay.length + 1)

/-- The context slice around an occurrence, lines 89-90 (and 106-107,
128-129) of the source: from `max(0, s - 30)` to `min(length, e + 30)`. -/
def sliceAround (hay : List Char) (s e : Nat) : List Char :=
  (hay.drop (s - 30)).take (min hay.length (e + 30) - (s - 30))

/-- The literal ellipsis glued onto both snippet ends. -/
def dots : List Char :=
  ['.', '.', '.']

/-- TEXT-zone snippet, line 91 of the source: slice, newline replacement,
ellipses (no stripping). -/
def textSnippet (hay : List Char) (s e : Nat) : List Char :=
  dots ++ replNl (sliceAround hay s e) ++ dots

/-- JS-zone snippet, line 108 of the source: slice, newline replacement,
strip, ellipses. -/
def jsSnippet (hay : List Char) (s e : Nat) : List Char :=
  dots ++ pyStrip (replNl (sliceAround hay s e)) ++ dots

/-- COMMENT-zone snippet, line 130 of the source: slice, strip, ellipses
(no newline replacement). -/
def commentSnippet (hay : List Char) (s e : Nat) : List Char :=
  dots ++ pyStrip (sliceAround hay s e) ++ dots

/-- Snippet builder following the words of the specification (section 4.1):
slice, collapse internal whitespace runs to single spaces, strip edge
whitespace, wrap in ellipses.  Defined only to be compared with the
snippets the code actually builds. -/
def snippetPerSpec (hay : List Char) (s e : Nat) : List Char :=
  dots ++ pyStrip (collapseWs (sliceAround hay s e)) ++ dots

/-- The zone a match was found in. -/
inductive MatchType
  | TEXT
  | JS
  | COMMENT
deriving DecidableEq

/-- One keyword occurrence inside one capture, as the dict built at lines
93-98, 110-115 and 132-137 of the source. -/
structure Match where
  timestamp : String
  archiveUrl : String
  matchType : MatchType
  snippet : List Char
deriving DecidableEq

/-- A script element of the parsed document: its `src` attribute, if any,
and its child text nodes. -/
structure Script where
  src : Option String
  children : List (List Char)
deriving DecidableEq

/-- Model of BeautifulSoup's `.string` accessor on a script element: the
text of its unique child when the element has exactly one child node, and
`none` otherwise (empty element, or several children). -/
def Script.string (sc : Script) : Option (List Char) :=
  match sc.children with
  | [c] => some c
  | _ => none

/-- A parsed HTML page, as `extract_data` consumes it after BeautifulSoup
parsing and toolbar removal (both external): the body text produced by
`get_text(separator=' ', strip=True)` when a body element exists, the
script elements, and the comment nodes. -/
structure Doc where
  body : Option (List Char)
  scripts : List Script
  comments : List (List Char)
deriving DecidableEq

/-- The script filter at lines 73-76 of the source: scripts whose `src`
attribute mentions the archive domain are decomposed, the rest are kept. -/
def scriptKept (sc : Script) : Bool :=
  match sc.src with
  | none => true
  | some s => !(containsSub s.toList ("archive.org".toList))

/-- TEXT zone of `extract_data`, lines 81-98 of the source: collapse the
body text's whitespace, scan it, and wrap each occurrence. -/
def textZoneMatches (doc : Doc) (k : List Char) (ts url : String) : List Match :=
  match doc.body with
  | none => []
  | some b =>
    (findOccurrences (collapseWs b) k).map fun se =>
      ⟨ts, url, MatchType.TEXT, textSnippet (collapseWs b) se.1 se.2⟩

/-- JS zone of `extract_data`, lines 100-115 of the source: every kept
script element whose `.string` is present is scanned on its own text. -/
def jsZoneMatches (doc : Doc) (k : List Char) (ts url : String) : List Match :=
  ((doc.scripts.filter scriptKept).map fun sc =>
    match sc.string with
    | none => []
    | some content =>
      (findOccurrences content k).map fun se =>
        ⟨ts, url, MatchType.JS, jsSnippet content se.1 se.2⟩).flatten

/-- COMMENT zone of `extract_data`, lines 117-137 of the source: every
comment that is not an archive-footer annotation is scanned. -/
def commentZoneMatches (doc : Doc) (k : List Char) (ts url : String) : List Match :=
  ((doc.comments.filter fun c => !(containsSub c ("FILE ARCHIVED ON".toList))).map fun c =>
    (findOccurrences c k).map fun se =>
      ⟨ts, url, MatchType.COMMENT, commentSnippet c se.1 se.2⟩).flatten

/-- Model of `extract_data` (lines 64-139 of the source): the match list
is accumulated zone by zone, TEXT first, then JS, then COMMENT. -/
def extract_data (doc : Doc) (k : List Char) (ts url : String) : List Match :=
  textZoneMatches doc k ts url ++ jsZoneMatches doc k ts url ++ commentZoneMatches doc k ts url

/-- One capture record parsed out of a CDX data row. -/
structure Snapshot where
  timestamp : String
  original : String
deriving DecidableEq

/-- Shape of a decoded CDX JSON payload, as far as `fetch_snapshots`
inspects it: either not a list at all, or a list of rows of strings. -/
inductive CdxPayload
  | notList
  | rowsList (rows : List (List String))
deriving DecidableEq

/-- A CDX index response: its status code, and its decoded JSON payload
(`none` models `response.json()` raising on a malformed body). -/
structure CdxResp where
  status : Nat
  payload : Option CdxPayload
deriving DecidableEq

/-- Row conversion at lines 50-55 of the source: rows with at least two
fields become snapshots, shorter rows are dropped. -/
def rowToSnapshot (row : List String) : Option Snapshot :=
  if 2 ≤ row.length then some ⟨row.getD 0 "", row.getD 1 ""⟩ else none

/-- Model of `fetch_snapshots` (lines 22-61 of the source).  The argument
is the outcome of the index request: `none` models a raised transport
exception, otherwise the response.  Non-200 status, undecodable JSON, a
payload that is not a list, and a list of at most one row all yield the
empty capture list; otherwise the header row is skipped and the remaining
rows are converted. -/
def fetch_snapshots (cdx : Option CdxResp) : List Snapshot :=
  match cdx with
  | none => []
  | some resp =>
    if resp.status ≠ 200 then []
    else
      match resp.payload with
      | none => []
      | some CdxPayload.notList => []
      | some (CdxPayload.rowsList rows) =>
        if rows.length ≤ 1 then []
        else (rows.drop 1).filterMap rowToSnapshot

/-- One server-sent event of the scan stream, before JSON framing. -/
inductive SseEvent
  | progress (message : String) (currentSnapshot totalSnapshots : Option Nat)
  | matchEv (m : Match)
  | complete (message : String)
  | error (message : String)
deriving DecidableEq

/-- Terminal events are `complete` and `error`. -/
def isTerminal : SseEvent → Bool
  | SseEvent.complete _ => true
  | SseEvent.error _ => true
  | _ => false

/-- Recognizer for `match` events. -/
def isMatchEvent : SseEvent → Bool
  | SseEvent.matchEv _ => true
  | _ => false

/-- Outcome of one capture fetch: status code and parsed page. -/
structure FetchResp where
  status : Nat
  doc : Doc

/-- The environment a scan runs against: the CDX index response and, per
capture position, the archive fetch outcome (`none` models an exception
raised while sleeping, fetching or reading the response). -/
structure ScanEnv where
  cdx : Option CdxResp
  fetch : Nat → Option FetchResp

/-- The archive URL reconstructed at line 195 of the source. -/
def archiveUrlOf (s : Snapshot) : String :=
  "https://web.archive.org/web/" ++ s.timestamp ++ "/" ++ s.original

/-- The matches produced for capture `i`: none if the fetch raised or
returned a non-200 status, otherwise whatever `extract_data` finds
(lines 204-221 of the source). -/
def matchesFor (env : ScanEnv) (k : List Char) (i : Nat) (s : Snapshot) : List Match :=
  match env.fetch i with
  | none => []
  | some r =>
    if r.status = 200 then extract_data r.doc k s.timestamp (archiveUrlOf s) else []

/-- The initial progress event of the stream (lines 168-171). -/
def contactEvt (domain : String) : SseEvent :=
  SseEvent.progress ("Contacting Wayback Machine for: " ++ domain ++ "...") none none

/-- The terminal event of an empty discovery (lines 176-179). -/
def noSnapsEvt : SseEvent :=
  SseEvent.complete "No snapshots found for this criteria."

/-- The progress event announcing the capture count (lines 182-187). -/
def analyzeEvt (keyword : String) (n : Nat) : SseEvent :=
  SseEvent.progress ("Analyzing " ++ toString n ++ " snapshots for '" ++ keyword ++ "'...")
    (some 0) (some n)

/-- The per-capture progress event (lines 197-202). -/
def scanningEvt (s : Snapshot) (i n : Nat) : SseEvent :=
  SseEvent.progress ("Scanning snapshot: " ++ s.timestamp ++ "...") (some (i + 1)) (some n)

/-- All events contributed by one capture: its progress event followed by
one `match` event per extracted match. -/
def captureBlock (env : ScanEnv) (k : List Char) (n : Nat) (p : Nat × Snapshot) :
    List SseEvent :=
  scanningEvt p.2 p.1 n :: (matchesFor env k p.1 p.2).map SseEvent.matchEv

/-- The final message, lines 228-237 of the source. -/
def completeMsg (found : Bool) : String :=
  if found then "Scan complete." else "Scan finished. No matches found."

/-- The capture loop of the generator (lines 192-237 of the source),
threading the `found_any` flag exactly as the code does and closing the
stream with the final `complete` event. -/
def scanLoop (env : ScanEnv) (k : List Char) (n : Nat) :
    List (Nat × Snapshot) → Bool → List SseEvent
  | [], found => [SseEvent.complete (completeMsg found)]
  | p :: rest, found =>
    captureBlock env k n p ++
      scanLoop env k n rest (found || !(matchesFor env k p.1 p.2).isEmpty)

/-- Model of the SSE generator `generate` (lines 164-244 of the source):
the full list of events emitted for one scan.  `domain` and `keyword` feed
the progress messages; the capture list comes from the discovery step. -/
def generate (env : ScanEnv) (domain keyword : String) : List SseEvent :=
  contactEvt domain ::
    (if fetch_snapshots env.cdx = [] then [noSnapsEvt]
     else
       analyzeEvt keyword (fetch_snapshots env.cdx).length ::
         scanLoop env keyword.toList (fetch_snapshots env.cdx).length
           (fetch_snapshots env.cdx).enum false)

/-- The captures a scan iterates over. -/
def capturesOf (env : ScanEnv) : List Snapshot :=
  fetch_snapshots env.cdx

/-- Whether any capture of the scan yields at least one match. -/
def anyMatchFound (env : ScanEnv) (k : List Char) : Bool :=
  (capturesOf env).enum.any fun p => !(matchesFor env k p.1 p.2).isEmpty

/-- The event stream written as an explicit shape: the contact event, then
either the empty-discovery terminal, or the analyze event followed by the
per-capture blocks in discovery order and the final `complete` event. -/
def streamShape (env : ScanEnv) (domain keyword : String) : List SseEvent :=
  contactEvt domain ::
    (if capturesOf env = [] then [noSnapsEvt]
     else
       analyzeEvt keyword (capturesOf env).length ::
         ((capturesOf env).enum.map
             (captureBlock env keyword.toList (capturesOf env).length)).flatten ++
           [SseEvent.complete (completeMsg (anyMatchFound env keyword.toList))])

/-- Soundness of the case-insensitive prefix test: a successful test means
the text is long enough and agrees with the keyword character by character
up to lowercasing. -/
theorem ciPrefix_sound :
    ∀ k l : List Char, ciPrefix k l = true →
      k.length ≤ l.length ∧ (l.take k.length).map Char.toLower = k.map Char.toLower := by
  intro k
  induction k with
  | nil => intro l _; simp
  | cons a ks ih =>
    intro l h
    cases l with
    | nil => simp [ciPrefix] at h
    | cons c cs =>
      simp only [ciPrefix, Bool.and_eq_true, beq_iff_eq] at h
      obtain ⟨h1, h2⟩ := h
      obtain ⟨hlen, htake⟩ := ih cs h2
      constructor
      · simpa using hlen
      · simp [htake, h1]

/-- The six modelled whitespace characters are fixed by lowercasing. -/
theorem toLower_of_ws (c : Char) (h : wsChar c = true) : c.toLower = c := by
  simp only [wsChar, Bool.or_eq_true, beq_iff_eq] at h
  rcases h with ((((h | h) | h) | h) | h) | h <;> subst h <;> decide

/-- A character matched case-insensitively against a keyword whose
lowercase form is whitespace-free is itself not whitespace. -/
theorem ciPrefix_nonws :
    ∀ k l : List Char, ciPrefix k l = true →
      (∀ c ∈ k, wsChar c.toLower = false) →
      ∀ c ∈ l.take k.length, wsChar c = false := by
  intro k
  induction k with
  | nil => intro l _ _ c hc; simp at hc
  | cons a ks ih =>
    intro l h hk c hc
    cases l with
    | nil => simp [ciPrefix] at h
    | cons b cs =>
      simp only [ciPrefix, Bool.and_eq_true, beq_iff_eq] at h
      obtain ⟨h1, h2⟩ := h
      simp only [List.length_cons, List.take_succ_cons, List.mem_cons] at hc
      rcases hc with hc | hc
      · subst hc
        cases hcw : wsChar c
        · rfl
        · exfalso
          have h2l : a.toLower = c := h1.trans (toLower_of_ws c hcw)
          have hmem := hk a (List.mem_cons_self a ks)
          rw [h2l, hcw] at hmem
          exact absurd hmem (by decide)
      · exact ih cs h2 (fun d hd => hk d (List.mem_cons_of_mem a hd)) c hc

/-- Soundness of the fuelled scan: every reported occurrence lies at or
after the start position, spans exactly the keyword length, fits inside
the haystack, and matches the keyword case-insensitively. -/
theorem findAux_sound (hay k : List Char) :
    ∀ fuel i s e, (s, e) ∈ findAux hay k i fuel →
      i ≤ s ∧ e = s + k.length ∧ s + k.length ≤ hay.length ∧
        ciPrefix k (hay.drop s) = true := by
  intro fuel
  induction fuel with
  | zero => intro i s e h; simp [findAux] at h
  | succ fuel ih =>
    intro i s e h
    simp only [findAux] at h
    split at h
    · simp at h
    · rename_i hlen
      have hile : i ≤ hay.length := Nat.le_of_not_lt hlen
      split at h
      · rename_i hpre
        split at h
        · rename_i hemp
          have hk : k = [] := List.isEmpty_iff.mp hemp
          rcases List.mem_cons.mp h with h1 | h1
          · have hs : s = i := congrArg Prod.fst h1
            have he : e = i := congrArg Prod.snd h1
            subst hk
            refine ⟨by omega, ?_, ?_, ?_⟩
            · simp only [List.length_nil]; omega
            · simp only [List.length_nil]; omega
            · rfl
          · obtain ⟨ha, hb, hc, hd⟩ := ih (i + 1) s e h1
            exact ⟨by omega, hb, hc, hd⟩
        · rcases List.mem_cons.mp h with h1 | h1
          · have hs : s = i := congrArg Prod.fst h1
            have he : e = i + k.length := congrArg Prod.snd h1
            have hlen2 := (ciPrefix_sound k (hay.drop i) hpre).1
            rw [List.length_drop] at hlen2
            refine ⟨by omega, by omega, by omega, ?_⟩
            rw [hs]
            exact hpre
          · obtain ⟨ha, hb, hc, hd⟩ := ih (i + k.length) s e h1
            exact ⟨by omega, hb, hc, hd⟩
      · obtain ⟨ha, hb, hc, hd⟩ := ih (i + 1) s e h
        exact ⟨by omega, hb, hc, hd⟩

/-- The occurrences reported by the fuelled scan are strictly increasing
in their start offsets and pairwise non-overlapping. -/
theorem findAux_pairwise (hay k : List Char) :
    ∀ fuel i, List.Pairwise (fun p q => p.1 < q.1 ∧ p.2 ≤ q.1) (findAux hay k i fuel) := by
  intro fuel
  induction fuel with
  | zero => intro i; simp [findAux]
  | succ fuel ih =>
    intro i
    simp only [findAux]
    split
    · exact List.Pairwise.nil
    · split
      · rename_i hpre
        split
        · rename_i hemp
          refine List.Pairwise.cons ?_ (ih (i + 1))
          intro q hq
          have := (findAux_sound hay k fuel (i + 1) q.1 q.2 hq).1
          constructor <;> omega
        · rename_i hemp
          have hkpos : 0 < k.length := by
            cases k with
            | nil => simp [List.isEmpty] at hemp
            | cons a ks => simp
          refine List.Pairwise.cons ?_ (ih (i + k.length))
          intro q hq
          have := (findAux_sound hay k fuel (i + k.length) q.1 q.2 hq).1
          constructor <;> omega
      · exact ih (i + 1)

/-- With the empty keyword the scan reports one zero-width occurrence at
every position: exactly `fuel` of them when the fuel equals the number of
remaining positions. -/
theorem findAux_nil_length (hay : List Char) :
    ∀ fuel i, i + fuel = hay.length + 1 → (findAux hay [] i fuel).length = fuel := by
  intro fuel
  induction fuel with
  | zero => intro i _; simp [findAux]
  | succ fuel ih =>
    intro i hfi
    simp only [findAux]
    split
    · omega
    · simp only [ciPrefix, List.isEmpty, if_true]
      have := ih (i + 1) (by omega)
      simp [this]

/-- A list starts with itself, whatever follows. -/
theorem startsWith_append : ∀ m v : List Char, startsWith (m ++ v) m = true := by
  intro m
  induction m with
  | nil => intro v; cases v <;> rfl
  | cons c cs ih => intro v; simp [startsWith, ih v]

/-- The empty pattern occurs in every list. -/
theorem containsSub_nil : ∀ l : List Char, containsSub l [] = true := by
  intro l
  cases l <;> rfl

/-- A pattern sitting between two other pieces is found by `containsSub`. -/
theorem containsSub_of_split : ∀ u m v : List Char, containsSub (u ++ m ++ v) m = true := by
  intro u
  induction u with
  | nil =>
    intro m v
    cases m with
    | nil => exact containsSub_nil v
    | cons c cs =>
      show (startsWith (c :: (cs ++ v)) (c :: cs) || containsSub (cs ++ v) (c :: cs)) = true
      have h2 : startsWith (c :: (cs ++ v)) (c :: cs) = true := startsWith_append (c :: cs) v
      rw [h2, Bool.true_or]
  | cons d u' ih =>
    intro m v
    show (startsWith (d :: (u' ++ m ++ v)) m || containsSub (u' ++ m ++ v) m) = true
    rw [ih m v, Bool.or_true]

/-- A pattern found after wrapping with arbitrary ends. -/
theorem containsSub_wrap (pre post l m u v : List Char) (h : l = u ++ m ++ v) :
    containsSub (pre ++ l ++ post) m = true := by
  subst h
  have hre : pre ++ (u ++ m ++ v) ++ post = (pre ++ u) ++ m ++ (v ++ post) := by
    simp [List.append_assoc]
  rw [hre]
  exact containsSub_of_split (pre ++ u) m (v ++ post)

/-- Dropping a leading run of characters satisfying `p` cannot eat into an
occurrence of a block `m` none of whose characters satisfy `p`. -/
theorem dropWhile_keeps_split (p : Char → Bool) (m : List Char)
    (hm : ∀ c ∈ m, p c = false) (hne : m ≠ []) :
    ∀ u v, ∃ u2 v2, (u ++ m ++ v).dropWhile p = u2 ++ m ++ v2 := by
  intro u
  induction u with
  | nil =>
    intro v
    cases m with
    | nil => exact absurd rfl hne
    | cons c m' =>
      refine ⟨[], v, ?_⟩
      have hc : p c = false := hm c (List.mem_cons_self c m')
      simp [List.dropWhile_cons, hc]
  | cons d u' ih =>
    intro v
    cases hd : p d with
    | true =>
      obtain ⟨u2, v2, h2⟩ := ih v
      refine ⟨u2, v2, ?_⟩
      show List.dropWhile p (d :: (u' ++ m ++ v)) = u2 ++ m ++ v2
      simp only [List.dropWhile_cons, hd, if_true]
      exact h2
    | false =>
      refine ⟨d :: u', v, ?_⟩
      show List.dropWhile p (d :: (u' ++ m ++ v)) = (d :: u') ++ m ++ v
      simp [List.dropWhile_cons, hd]

/-- Stripping edge whitespace keeps every whitespace-free block intact. -/
theorem pyStrip_split (m l : List Char) (hm : ∀ c ∈ m, wsChar c = false)
    (h : ∃ u v, l = u ++ m ++ v) : ∃ u v, pyStrip l = u ++ m ++ v := by
  cases m with
  | nil => exact ⟨pyStrip l, [], by simp⟩
  | cons c m' =>
    obtain ⟨u, v, hl⟩ := h
    subst hl
    have hne : c :: m' ≠ [] := by simp
    obtain ⟨u2, v2, h2⟩ := dropWhile_keeps_split wsChar (c :: m') hm hne u v
    unfold pyStrip
    rw [h2]
    have hrev : (u2 ++ c :: m' ++ v2).reverse = v2.reverse ++ (c :: m').reverse ++ u2.reverse := by
      simp [List.append_assoc]
    rw [hrev]
    have hmrev : ∀ d ∈ (c :: m').reverse, wsChar d = false := by
      intro d hd
      exact hm d (List.mem_reverse.mp hd)
    have hnerev : (c :: m').reverse ≠ [] := by simp
    obtain ⟨u3, v3, h3⟩ :=
      dropWhile_keeps_split wsChar ((c :: m').reverse) hmrev hnerev v2.reverse u2.reverse
    rw [h3]
    refine ⟨v3.reverse, u3.reverse, ?_⟩
    simp [List.append_assoc]

/-- Newline replacement keeps every whitespace-free block intact. -/
theorem replNl_split (m l : List Char) (hm : ∀ c ∈ m, wsChar c = false)
    (h : ∃ u v, l = u ++ m ++ v) : ∃ u v, replNl l = u ++ m ++ v := by
  obtain ⟨u, v, hl⟩ := h
  subst hl
  refine ⟨replNl u, replNl v, ?_⟩
  unfold replNl
  simp only [List.map_append]
  have hid : m.map (fun c => if c == '\n' then ' ' else c) = m := by
    have : ∀ c ∈ m, (fun c => if c == '\n' then ' ' else c) c = c := by
      intro c hc
      have hcw := hm c hc
      have hcne : (c == '\n') = false := by
        cases hcn : c == '\n'
        · rfl
        · exfalso
          have : c = '\n' := beq_iff_eq.mp hcn
          rw [this] at hcw
          simp [wsChar] at hcw
      simp [hcne]
    rw [List.map_congr_left this]
    simp
  rw [hid]

/-- The context slice around an in-bounds occurrence splits as context,
matched text, context. -/
theorem slice_split (hay : List Char) (s n : Nat) (h : s + n ≤ hay.length) :
    ∃ u v, sliceAround hay s (s + n) = u ++ (hay.drop s).take n ++ v := by
  refine ⟨(hay.drop (s - 30)).take (s - (s - 30)),
          (hay.drop (s + n)).take (min hay.length (s + n + 30) - (s + n)), ?_⟩
  unfold sliceAround
  have hsum : min hay.length (s + n + 30) - (s - 30)
      = (s - (s - 30)) + (n + (min hay.length (s + n + 30) - (s + n))) := by omega
  rw [hsum, List.take_add, List.drop_drop]
  have h1 : s - 30 + (s - (s - 30)) = s := by omega
  rw [h1, List.take_add, List.drop_drop]
  simp [List.append_assoc]

/-- Every snippet built by the three zones contains the matched text with
its original casing, provided no character of the lowercased keyword is
whitespace. -/
theorem snippet_contains (hay k : List Char) (s e : Nat)
    (hk : ∀ c ∈ k, wsChar c.toLower = false)
    (hmem : (s, e) ∈ findOccurrences hay k) :
    containsSub (textSnippet hay s e) ((hay.drop s).take k.length) = true ∧
    containsSub (jsSnippet hay s e) ((hay.drop s).take k.length) = true ∧
    containsSub (commentSnippet hay s e) ((hay.drop s).take k.length) = true := by
  obtain ⟨-, he, hle, hpre⟩ := findAux_sound hay k (hay.length + 1) 0 s e hmem
  have hnw : ∀ c ∈ (hay.drop s).take k.length, wsChar c = false :=
    ciPrefix_nonws k (hay.drop s) hpre hk
  subst he
  obtain ⟨u, v, hsplit⟩ := slice_split hay s k.length hle
  have hrepl := replNl_split ((hay.drop s).take k.length) (sliceAround hay s (s + k.length))
    hnw ⟨u, v, hsplit⟩
  obtain ⟨u1, v1, h1⟩ := hrepl
  have hjs := pyStrip_split ((hay.drop s).take k.length)
    (replNl (sliceAround hay s (s + k.length))) hnw ⟨u1, v1, h1⟩
  obtain ⟨u2, v2, h2⟩ := hjs
  have hcm := pyStrip_split ((hay.drop s).take k.length) (sliceAround hay s (s + k.length))
    hnw ⟨u, v, hsplit⟩
  obtain ⟨u3, v3, h3⟩ := hcm
  refine ⟨?_, ?_, ?_⟩
  · exact containsSub_wrap dots dots _ _ u1 v1 h1
  · exact containsSub_wrap dots dots _ _ u2 v2 h2
  · exact containsSub_wrap dots dots _ _ u3 v3 h3

/-- The capture loop, rewritten as the concatenation of the per-capture
blocks followed by the final `complete` event; the final message reflects
whether the initial flag or any capture produced a match. -/
theorem scanLoop_eq (env : ScanEnv) (k : List Char) (n : Nat) :
    ∀ (l : List (Nat × Snapshot)) (found : Bool),
      scanLoop env k n l found =
        (l.map (captureBlock env k n)).flatten ++
          [SseEvent.complete
            (completeMsg (found || l.any fun p => !(matchesFor env k p.1 p.2).isEmpty))] := by
  intro l
  induction l with
  | nil => intro found; simp [scanLoop]
  | cons p rest ih =>
    intro found
    simp only [scanLoop, List.map_cons, List.flatten_cons, List.any_cons, ih,
      List.append_assoc, Bool.or_assoc]

/-- The generator's stream equals its explicit shape. -/
theorem generate_eq_streamShape (env : ScanEnv) (domain keyword : String) :
    generate env domain keyword = streamShape env domain keyword := by
  unfold generate streamShape capturesOf anyMatchFound
  split
  · rfl
  · rw [scanLoop_eq]
    simp [capturesOf]

/-- No event inside a capture block is terminal: the block is one progress
event followed by match events. -/
theorem captureBlock_no_terminal (env : ScanEnv) (k : List Char) (n : Nat)
    (p : Nat × Snapshot) (e : SseEvent) (he : e ∈ captureBlock env k n p) :
    isTerminal e = false := by
  simp only [captureBlock, List.mem_cons] at he
  rcases he with he | he
  · subst he; rfl
  · obtain ⟨m, _, hm⟩ := List.mem_map.mp he
    rw [Eq.symm hm]
    rfl

/-- A capture block holds a match event exactly when the capture produced
at least one match. -/
theorem captureBlock_any_match (env : ScanEnv) (k : List Char) (n : Nat)
    (p : Nat × Snapshot) :
    (captureBlock env k n p).any isMatchEvent = !(matchesFor env k p.1 p.2).isEmpty := by
  simp only [captureBlock, List.any_cons]
  have h1 : isMatchEvent (scanningEvt p.2 p.1 n) = false := rfl
  rw [h1, Bool.false_or]
  cases matchesFor env k p.1 p.2 with
  | nil => rfl
  | cons a t => simp [isMatchEvent]

/-- The concatenated capture blocks hold a match event exactly when some
capture produced a match. -/
theorem flatten_blocks_any_match (env : ScanEnv) (k : List Char) (n : Nat) :
    ∀ l : List (Nat × Snapshot),
      ((l.map (captureBlock env k n)).flatten.any isMatchEvent)
        = l.any fun p => !(matchesFor env k p.1 p.2).isEmpty := by
  intro l
  induction l with
  | nil => rfl
  | cons p rest ih =>
    simp only [List.map_cons, List.flatten_cons, List.any_append, List.any_cons, ih,
      captureBlock_any_match]

/-- Flattening a list of singletons is a plain map. -/
theorem flatten_map_singleton {α β : Type} (f : α → β) :
    ∀ l : List α, (l.map fun x => [f x]).flatten = l.map f := by
  intro l
  induction l with
  | nil => rfl
  | cons a t ih => simp [ih]

/-- C1: every stream produced by the generator ends in exactly one
terminal event (`complete` or `error`), preceded only by non-terminal
`progress`/`match` events and followed by nothing; the stream equals the
explicit shape (contact event, then either the empty-discovery terminal or
the analyze event, the per-capture blocks in discovery order, and the
final `complete`), and for any two adjacent captures the whole block of
the first — its progress event and all its match events — precedes the
whole block of the second, whose first event is its progress event. -/
theorem claim_C1 (env : ScanEnv) (domain keyword : String) :
    (∃ pre t, generate env domain keyword = pre ++ [t] ∧ isTerminal t = true ∧
        ∀ e ∈ pre, isTerminal e = false) ∧
    generate env domain keyword = streamShape env domain keyword ∧
    (∀ l1 p q l2,
      (capturesOf env).enum = l1 ++ p :: q :: l2 →
      ∃ u w, generate env domain keyword =
        u ++ (captureBlock env keyword.toList (capturesOf env).length p
          ++ (captureBlock env keyword.toList (capturesOf env).length q ++ w))) := by
  refine ⟨?_, generate_eq_streamShape env domain keyword, ?_⟩
  · rw [generate_eq_streamShape]
    unfold streamShape
    split
    · refine ⟨[contactEvt domain], noSnapsEvt, rfl, rfl, ?_⟩
      intro e he
      simp only [List.mem_singleton] at he
      subst he
      rfl
    · refine ⟨contactEvt domain :: analyzeEvt keyword (capturesOf env).length ::
        ((capturesOf env).enum.map
          (captureBlock env keyword.toList (capturesOf env).length)).flatten,
        SseEvent.complete (completeMsg (anyMatchFound env keyword.toList)), by simp, rfl, ?_⟩
      intro e he
      simp only [List.mem_cons] at he
      rcases he with he | he
      · subst he; rfl
      rcases he with he | he
      · subst he; rfl
      · obtain ⟨bl, hbl, hebl⟩ := List.mem_flatten.mp he
        obtain ⟨pp, _, hpp⟩ := List.mem_map.mp hbl
        rw [Eq.symm hpp] at hebl
        exact captureBlock_no_terminal env keyword.toList _ pp e hebl
  · intro l1 p q l2 hsplit
    have hne : ¬ capturesOf env = [] := by
      intro hnil
      rw [hnil] at hsplit
      simp [List.enum_nil] at hsplit
    rw [generate_eq_streamShape]
    unfold streamShape
    rw [if_neg hne, hsplit]
    refine ⟨contactEvt domain :: analyzeEvt keyword (capturesOf env).length ::
      (l1.map (captureBlock env keyword.toList (capturesOf env).length)).flatten,
      (l2.map (captureBlock env keyword.toList (capturesOf env).length)).flatten ++
        [SseEvent.complete (completeMsg (anyMatchFound env keyword.toList))], ?_⟩
    simp [List.map_append, List.flatten_append, List.append_assoc]

/-- C1 witness: with two discovered captures and every fetch failing, the
theorem's adjacency conjunct applies at the concrete split and exhibits
capture 0's whole block before capture 1's. -/
theorem claim_C1_witness :
    ∃ u w,
      generate
          ⟨some ⟨200, some (CdxPayload.rowsList [["h", "h"], ["t1", "o1"], ["t2", "o2"]])⟩,
            fun _ => none⟩ "example.com" "login" =
        u ++ (captureBlock
            ⟨some ⟨200, some (CdxPayload.rowsList [["h", "h"], ["t1", "o1"], ["t2", "o2"]])⟩,
              fun _ => none⟩ ("login".toList) 2 (0, ⟨"t1", "o1"⟩)
          ++ (captureBlock
              ⟨some ⟨200, some (CdxPayload.rowsList [["h", "h"], ["t1", "o1"], ["t2", "o2"]])⟩,
                fun _ => none⟩ ("login".toList) 2 (1, ⟨"t2", "o2"⟩) ++ w)) :=
  (claim_C1
    ⟨some ⟨200, some (CdxPayload.rowsList [["h", "h"], ["t1", "o1"], ["t2", "o2"]])⟩,
      fun _ => none⟩ "example.com" "login").2.2
    [] (0, ⟨"t1", "o1"⟩) (1, ⟨"t2", "o2"⟩) [] (by decide)

/-- C2: a capture whose fetch raises, or whose fetch returns a non-200
status, contributes only its progress event — no match and no error event;
and when every fetch raises, the stream is the contact event, then (when
discovery found captures) the analyze event, one progress event per
capture, and a final `complete` with the no-matches message. -/
theorem claim_C2 :
    (∀ (env : ScanEnv) (k : List Char) (n i : Nat) (s : Snapshot),
      (env.fetch i = none ∨ ∃ r, env.fetch i = some r ∧ r.status ≠ 200) →
      captureBlock env k n (i, s) = [scanningEvt s i n]) ∧
    (∀ (env : ScanEnv) (domain keyword : String),
      (∀ i, env.fetch i = none) →
      generate env domain keyword =
        contactEvt domain ::
          (if capturesOf env = [] then [noSnapsEvt]
           else analyzeEvt keyword (capturesOf env).length ::
             (((capturesOf env).enum.map fun p => scanningEvt p.2 p.1 (capturesOf env).length) ++
               [SseEvent.complete "Scan finished. No matches found."]))) := by
  constructor
  · intro env k n i s h
    have hm : matchesFor env k i s = [] := by
      rcases h with h | ⟨r, hr, hst⟩
      · simp [matchesFor, h]
      · simp [matchesFor, hr, hst]
    simp [captureBlock, hm]
  · intro env domain keyword hfail
    have hm : ∀ (k : List Char) (i : Nat) (s : Snapshot), matchesFor env k i s = [] := by
      intro k i s
      simp [matchesFor, hfail i]
    rw [generate_eq_streamShape]
    unfold streamShape
    split
    · rfl
    · have hblocks : ∀ p : Nat × Snapshot,
          captureBlock env keyword.toList (capturesOf env).length p =
            [scanningEvt p.2 p.1 (capturesOf env).length] := by
        intro p
        simp [captureBlock, hm]
      have hmap : (capturesOf env).enum.map
            (captureBlock env keyword.toList (capturesOf env).length) =
          (capturesOf env).enum.map fun p => [scanningEvt p.2 p.1 (capturesOf env).length] :=
        List.map_congr_left fun p _ => hblocks p
      have hany : anyMatchFound env keyword.toList = false := by
        unfold anyMatchFound
        simp [hm]
      rw [hmap, hany,
        flatten_map_singleton (fun p : Nat × Snapshot => scanningEvt p.2 p.1 (capturesOf env).length)
          (capturesOf env).enum]
      rfl

/-- C2 witness: one capture, its fetch raising; the capture contributes
only its progress event and the whole stream ends in the no-matches
`complete`. -/
theorem claim_C2_witness :
    captureBlock ⟨some ⟨200, some (CdxPayload.rowsList [["h", "h"], ["t1", "o1"]])⟩,
        fun _ => none⟩ ("k".toList) 1 (0, ⟨"t1", "o1"⟩) = [scanningEvt ⟨"t1", "o1"⟩ 0 1] ∧
    generate ⟨some ⟨200, some (CdxPayload.rowsList [["h", "h"], ["t1", "o1"]])⟩,
        fun _ => none⟩ "d" "k" =
      contactEvt "d" ::
        (if capturesOf ⟨some ⟨200, some (CdxPayload.rowsList [["h", "h"], ["t1", "o1"]])⟩,
            fun _ => none⟩ = [] then [noSnapsEvt]
         else analyzeEvt "k"
            (capturesOf ⟨some ⟨200, some (CdxPayload.rowsList [["h", "h"], ["t1", "o1"]])⟩,
              fun _ => none⟩).length ::
           (((capturesOf ⟨some ⟨200, some (CdxPayload.rowsList [["h", "h"], ["t1", "o1"]])⟩,
              fun _ => none⟩).enum.map fun p =>
                scanningEvt p.2 p.1
                  (capturesOf ⟨some ⟨200, some (CdxPayload.rowsList [["h", "h"], ["t1", "o1"]])⟩,
                    fun _ => none⟩).length) ++
             [SseEvent.complete "Scan finished. No matches found."])) :=
  ⟨claim_C2.1 ⟨some ⟨200, some (CdxPayload.rowsList [["h", "h"], ["t1", "o1"]])⟩,
      fun _ => none⟩ ("k".toList) 1 0 ⟨"t1", "o1"⟩ (Or.inl rfl),
   claim_C2.2 ⟨some ⟨200, some (CdxPayload.rowsList [["h", "h"], ["t1", "o1"]])⟩,
      fun _ => none⟩ "d" "k" fun _ => rfl⟩

/-- C3: every discovery failure — a raised transport exception, a non-200
status, an undecodable or non-list payload, or a list with at most one row
— yields the empty capture list; the generator then emits exactly the
contact event and the no-snapshots `complete`, and never an `error`
event. -/
theorem claim_C3 :
    fetch_snapshots none = [] ∧
    (∀ st pl, st ≠ 200 → fetch_snapshots (some ⟨st, pl⟩) = []) ∧
    (∀ st, fetch_snapshots (some ⟨st, none⟩) = []) ∧
    (∀ st, fetch_snapshots (some ⟨st, some CdxPayload.notList⟩) = []) ∧
    (∀ st rows, rows.length ≤ 1 →
      fetch_snapshots (some ⟨st, some (CdxPayload.rowsList rows)⟩) = []) ∧
    (∀ (env : ScanEnv) (domain keyword : String), fetch_snapshots env.cdx = [] →
      generate env domain keyword = [contactEvt domain, noSnapsEvt] ∧
      ∀ msg, SseEvent.error msg ∉ generate env domain keyword) := by
  refine ⟨rfl, ?_, ?_, ?_, ?_, ?_⟩
  · intro st pl h
    simp [fetch_snapshots, h]
  · intro st
    simp [fetch_snapshots]
  · intro st
    simp [fetch_snapshots]
  · intro st rows h
    simp [fetch_snapshots, h]
  · intro env domain keyword h
    have hgen : generate env domain keyword = [contactEvt domain, noSnapsEvt] := by
      simp [generate, h]
    refine ⟨hgen, ?_⟩
    intro msg hmem
    rw [hgen] at hmem
    simp only [List.mem_cons, List.mem_singleton] at hmem
    rcases hmem with hmem | hmem | hmem
    · exact SseEvent.noConfusion hmem
    · exact SseEvent.noConfusion hmem
    · exact absurd hmem (List.not_mem_nil _)

/-- C3 witness: a header-only CDX payload yields an empty capture list and
the two-event stream without any `error` event. -/
theorem claim_C3_witness :
    fetch_snapshots (some ⟨200, some (CdxPayload.rowsList [["timestamp", "original"]])⟩) = [] ∧
    generate ⟨some ⟨200, some (CdxPayload.rowsList [["timestamp", "original"]])⟩,
        fun _ => none⟩ "d" "k" = [contactEvt "d", noSnapsEvt] :=
  ⟨claim_C3.2.2.2.2.1 200 [["timestamp", "original"]] (by decide),
   (claim_C3.2.2.2.2.2 ⟨some ⟨200, some (CdxPayload.rowsList [["timestamp", "original"]])⟩,
      fun _ => none⟩ "d" "k" (by decide)).1⟩

/-- C9: whenever discovery found at least one capture, the stream is a
prefix followed by one final `complete` event whose message is the
matches-found framing exactly when the prefix holds a match event, and the
no-matches framing otherwise. -/
theorem claim_C9 (env : ScanEnv) (domain keyword : String)
    (h : fetch_snapshots env.cdx ≠ []) :
    ∃ pre, generate env domain keyword =
      pre ++ [SseEvent.complete
        (if pre.any isMatchEvent then "Scan complete."
         else "Scan finished. No matches found.")] := by
  refine ⟨contactEvt domain :: analyzeEvt keyword (capturesOf env).length ::
    ((capturesOf env).enum.map (captureBlock env keyword.toList (capturesOf env).length)).flatten,
    ?_⟩
  rw [generate_eq_streamShape]
  unfold streamShape
  rw [if_neg (show ¬ capturesOf env = [] from h)]
  have hany : (contactEvt domain :: analyzeEvt keyword (capturesOf env).length ::
      ((capturesOf env).enum.map
        (captureBlock env keyword.toList (capturesOf env).length)).flatten).any isMatchEvent
        = anyMatchFound env keyword.toList := by
    simp only [List.any_cons]
    have h1 : isMatchEvent (contactEvt domain) = false := rfl
    have h2 : isMatchEvent (analyzeEvt keyword (capturesOf env).length) = false := rfl
    rw [h1, h2, Bool.false_or, Bool.false_or, flatten_blocks_any_match]
    rfl
  rw [hany]
  simp [completeMsg]

/-- C9 witness: one capture whose page contains the keyword; the theorem
applies and its hypothesis holds by computation. -/
theorem claim_C9_witness :
    fetch_snapshots (some ⟨200, some (CdxPayload.rowsList [["h", "h"], ["t1", "o1"]])⟩) ≠ [] ∧
    ∃ pre, generate ⟨some ⟨200, some (CdxPayload.rowsList [["h", "h"], ["t1", "o1"]])⟩,
        fun _ => some ⟨200, ⟨some ("xkeyz".toList), [], []⟩⟩⟩ "d" "key" =
      pre ++ [SseEvent.complete
        (if pre.any isMatchEvent then "Scan complete."
         else "Scan finished. No matches found.")] :=
  ⟨by decide,
   claim_C9 ⟨some ⟨200, some (CdxPayload.rowsList [["h", "h"], ["t1", "o1"]])⟩,
      fun _ => some ⟨200, ⟨some ("xkeyz".toList), [], []⟩⟩⟩ "d" "key" (by decide)⟩

/-- C4 counterexample: with the empty keyword the extractor does not
return zero occurrences — on body text "ab" the empty pattern matches at
every position, producing three Match records. -/
theorem claim_C4_counterexample :
    extract_data ⟨some ['a', 'b'], [], []⟩ [] "t" "u" ≠ [] ∧
    (findOccurrences ['a', 'b'] []).length = 3 := by
  constructor <;> decide

/-- C4 amended: an empty haystack yields zero occurrences for every
non-empty keyword, in every zone and without error; an empty keyword,
however, yields one zero-width occurrence at each of the length+1
positions of the haystack rather than zero. -/
theorem claim_C4_amended :
    (∀ k : List Char, k ≠ [] → findOccurrences [] k = []) ∧
    (∀ (k : List Char) (ts url : String), k ≠ [] →
      extract_data ⟨some [], [⟨none, [[]]⟩], [[]]⟩ k ts url = []) ∧
    (∀ hay : List Char, (findOccurrences hay []).length = hay.length + 1) := by
  refine ⟨?_, ?_, ?_⟩
  · intro k hk
    cases k with
    | nil => exact absurd rfl hk
    | cons c ks => rfl
  · intro k ts url hk
    have h0 : findOccurrences [] k = [] := by
      cases k with
      | nil => exact absurd rfl hk
      | cons c ks => rfl
    simp [extract_data, textZoneMatches, jsZoneMatches, commentZoneMatches, collapseWs,
      collapseAux, Script.string, scriptKept, containsSub, startsWith, h0]
  · intro hay
    exact findAux_nil_length hay (hay.length + 1) 0 (by omega)

/-- C4 amended witness: keyword "k" on the all-empty-haystack document
yields no match, and the empty-keyword count law evaluated on "ab". -/
theorem claim_C4_amended_witness :
    findOccurrences [] ['k'] = [] ∧
    extract_data ⟨some [], [⟨none, [[]]⟩], [[]]⟩ ['k'] "t" "u" = [] ∧
    (findOccurrences ['a', 'b'] []).length = ['a', 'b'].length + 1 :=
  ⟨claim_C4_amended.1 ['k'] (by decide),
   claim_C4_amended.2.1 ['k'] "t" "u" (by decide),
   claim_C4_amended.2.2 ['a', 'b']⟩

/-- C5: every occurrence reported by the search spans exactly the keyword
length and agrees with the keyword character by character up to
lowercasing — the keyword is matched as literal text; concretely, keyword
"a.b" never matches "axb" and matches the literal "a.b". -/
theorem claim_C5 :
    (∀ (hay k : List Char) (s e : Nat), (s, e) ∈ findOccurrences hay k →
      e = s + k.length ∧
      ((hay.drop s).take k.length).map Char.toLower = k.map Char.toLower) ∧
    findOccurrences ("axb".toList) ("a.b".toList) = [] ∧
    findOccurrences ("xa.b".toList) ("a.b".toList) = [(1, 4)] := by
  refine ⟨?_, by decide, by decide⟩
  intro hay k s e hmem
  obtain ⟨-, he, -, hpre⟩ := findAux_sound hay k (hay.length + 1) 0 s e hmem
  exact ⟨he, (ciPrefix_sound k (hay.drop s) hpre).2⟩

/-- C5 witness: the literal-match law applied to the occurrence of "a.b"
inside "xa.b". -/
theorem claim_C5_witness :
    (1, 4) ∈ findOccurrences ("xa.b".toList) ("a.b".toList) ∧
    (4 = 1 + ("a.b".toList).length ∧
      ((("xa.b".toList).drop 1).take ("a.b".toList).length).map Char.toLower =
        ("a.b".toList).map Char.toLower) :=
  ⟨by decide, claim_C5.1 ("xa.b".toList) ("a.b".toList) 1 4 (by decide)⟩

/-- C10: a script element with zero or several child nodes has `string`
equal to none, and such a script contributes no match at all — removing it
from the document leaves the extractor's output unchanged, whatever its
children contain. -/
theorem claim_C10 :
    (∀ (src : Option String) (children : List (List Char)),
      children.length ≠ 1 → Script.string ⟨src, children⟩ = none) ∧
    (∀ (body : Option (List Char)) (s1 s2 : List Script) (cs : List (List Char))
      (sc : Script) (k : List Char) (ts url : String),
      sc.string = none →
      extract_data ⟨body, s1 ++ sc :: s2, cs⟩ k ts url =
        extract_data ⟨body, s1 ++ s2, cs⟩ k ts url) := by
  constructor
  · intro src children h
    cases children with
    | nil => rfl
    | cons a t =>
      cases t with
      | nil => exact absurd rfl h
      | cons b t2 => rfl
  · intro body s1 s2 cs sc k ts url hsc
    have hj : jsZoneMatches ⟨body, s1 ++ sc :: s2, cs⟩ k ts url =
        jsZoneMatches ⟨body, s1 ++ s2, cs⟩ k ts url := by
      unfold jsZoneMatches
      cases hkept : scriptKept sc with
      | false => simp [List.filter_append, List.filter_cons, hkept]
      | true => simp [List.filter_append, List.filter_cons, hkept, hsc]
    show textZoneMatches ⟨body, s1 ++ s2, cs⟩ k ts url ++
        jsZoneMatches ⟨body, s1 ++ sc :: s2, cs⟩ k ts url ++
        commentZoneMatches ⟨body, s1 ++ s2, cs⟩ k ts url = _
    rw [hj]
    rfl

/-- C10 witness: a script with two child text nodes whose concatenation
spells the keyword still contributes nothing. -/
theorem claim_C10_witness :
    Script.string ⟨none, [("ke".toList), ("y".toList)]⟩ = none ∧
    extract_data ⟨none, [⟨none, [("ke".toList), ("y".toList)]⟩], []⟩ ("key".toList) "t" "u" =
      extract_data ⟨none, [], []⟩ ("key".toList) "t" "u" ∧
    containsSub (("ke".toList) ++ ("y".toList)) ("key".toList) = true :=
  ⟨claim_C10.1 none [("ke".toList), ("y".toList)] (by decide),
   claim_C10.2 none [] [] [] ⟨none, [("ke".toList), ("y".toList)]⟩ ("key".toList) "t" "u"
     (claim_C10.1 none [("ke".toList), ("y".toList)] (by decide)),
   by decide⟩

/-- Every TEXT-zone match carries the supplied timestamp and archive URL,
is tagged TEXT, and wraps an occurrence found in the collapsed body
text. -/
theorem textZone_shape (doc : Doc) (k : List Char) (ts url : String) :
    ∀ m ∈ textZoneMatches doc k ts url,
      ∃ b se, doc.body = some b ∧ se ∈ findOccurrences (collapseWs b) k ∧
        m = ⟨ts, url, MatchType.TEXT, textSnippet (collapseWs b) se.1 se.2⟩ := by
  intro m hm
  unfold textZoneMatches at hm
  cases hbody : doc.body with
  | none => rw [hbody] at hm; simp at hm
  | some b =>
    rw [hbody] at hm
    obtain ⟨se, hse, hmEq⟩ := List.mem_map.mp hm
    exact ⟨b, se, rfl, hse, Eq.symm hmEq⟩

/-- Every JS-zone match carries the supplied timestamp and archive URL, is
tagged JS, and wraps an occurrence found in the text of one kept script
element. -/
theorem jsZone_shape (doc : Doc) (k : List Char) (ts url : String) :
    ∀ m ∈ jsZoneMatches doc k ts url,
      ∃ sc content se, sc ∈ doc.scripts ∧ sc.string = some content ∧
        se ∈ findOccurrences content k ∧
        m = ⟨ts, url, MatchType.JS, jsSnippet content se.1 se.2⟩ := by
  intro m hm
  unfold jsZoneMatches at hm
  simp only [List.mem_flatten, List.mem_map] at hm
  obtain ⟨bl, ⟨sc, hscmem, hbl⟩, hmbl⟩ := hm
  rw [Eq.symm hbl] at hmbl
  cases hstr : sc.string with
  | none => rw [hstr] at hmbl; simp at hmbl
  | some content =>
    rw [hstr] at hmbl
    simp only [List.mem_map] at hmbl
    obtain ⟨se, hse, hmEq⟩ := hmbl
    exact ⟨sc, content, se, List.mem_of_mem_filter hscmem, hstr, hse, Eq.symm hmEq⟩

/-- Every COMMENT-zone match carries the supplied timestamp and archive
URL, is tagged COMMENT, and wraps an occurrence found in one kept comment
node. -/
theorem commentZone_shape (doc : Doc) (k : List Char) (ts url : String) :
    ∀ m ∈ commentZoneMatches doc k ts url,
      ∃ c se, c ∈ doc.comments ∧ se ∈ findOccurrences c k ∧
        m = ⟨ts, url, MatchType.COMMENT, commentSnippet c se.1 se.2⟩ := by
  intro m hm
  unfold commentZoneMatches at hm
  simp only [List.mem_flatten, List.mem_map] at hm
  obtain ⟨bl, ⟨c, hcmem, hbl⟩, hmbl⟩ := hm
  rw [Eq.symm hbl] at hmbl
  simp only [List.mem_map] at hmbl
  obtain ⟨se, hse, hmEq⟩ := hmbl
  exact ⟨c, se, List.mem_of_mem_filter hcmem, hse, Eq.symm hmEq⟩

/-- C8: the extractor's result is the concatenation, in that order, of the
TEXT-zone, JS-zone and COMMENT-zone matches; each zone tags its matches
with its own type; and every match in the result carries exactly the
supplied timestamp and archive URL. -/
theorem claim_C8 (doc : Doc) (k : List Char) (ts url : String) :
    extract_data doc k ts url =
      textZoneMatches doc k ts url ++ jsZoneMatches doc k ts url ++
        commentZoneMatches doc k ts url ∧
    (∀ m ∈ textZoneMatches doc k ts url, m.matchType = MatchType.TEXT) ∧
    (∀ m ∈ jsZoneMatches doc k ts url, m.matchType = MatchType.JS) ∧
    (∀ m ∈ commentZoneMatches doc k ts url, m.matchType = MatchType.COMMENT) ∧
    (∀ m ∈ extract_data doc k ts url, m.timestamp = ts ∧ m.archiveUrl = url) := by
  refine ⟨rfl, ?_, ?_, ?_, ?_⟩
  · intro m hm
    obtain ⟨b, se, -, -, hmEq⟩ := textZone_shape doc k ts url m hm
    rw [hmEq]
  · intro m hm
    obtain ⟨sc, content, se, -, -, -, hmEq⟩ := jsZone_shape doc k ts url m hm
    rw [hmEq]
  · intro m hm
    obtain ⟨c, se, -, -, hmEq⟩ := commentZone_shape doc k ts url m hm
    rw [hmEq]
  · intro m hm
    rcases List.mem_append.mp hm with hm2 | hm2
    · rcases List.mem_append.mp hm2 with hm3 | hm3
      · obtain ⟨b, se, -, -, hmEq⟩ := textZone_shape doc k ts url m hm3
        rw [hmEq]
        exact ⟨rfl, rfl⟩
      · obtain ⟨sc, content, se, -, -, -, hmEq⟩ := jsZone_shape doc k ts url m hm3
        rw [hmEq]
        exact ⟨rfl, rfl⟩
    · obtain ⟨c, se, -, -, hmEq⟩ := commentZone_shape doc k ts url m hm2
      rw [hmEq]
      exact ⟨rfl, rfl⟩

/-- C8 witness: the field law applied to the one match extracted from a
page whose body contains the keyword. -/
theorem claim_C8_witness :
    (⟨"t", "u", MatchType.TEXT, "...xkeyz...".toList⟩ : Match) ∈
      extract_data ⟨some ("xkeyz".toList), [], []⟩ ("key".toList) "t" "u" ∧
    ((⟨"t", "u", MatchType.TEXT, "...xkeyz...".toList⟩ : Match).timestamp = "t" ∧
      (⟨"t", "u", MatchType.TEXT, "...xkeyz...".toList⟩ : Match).archiveUrl = "u") :=
  ⟨by decide,
   (claim_C8 ⟨some ("xkeyz".toList), [], []⟩ ("key".toList) "t" "u").2.2.2.2
     ⟨"t", "u", MatchType.TEXT, "...xkeyz...".toList⟩ (by decide)⟩

/-- C7 counterexample: for keyword "a " (trailing space) found in comment
"a ", the emitted snippet is "...a..." — the stripping removed the matched
text's trailing space, so the snippet does not contain the matched text. -/
theorem claim_C7_counterexample :
    findOccurrences ['a', ' '] ['a', ' '] = [(0, 2)] ∧
    (extract_data ⟨none, [], [['a', ' ']]⟩ ['a', ' '] "t" "u").map Match.snippet =
      [("...a...".toList)] ∧
    containsSub ("...a...".toList) ['a', ' '] = false := by
  refine ⟨by decide, by decide, by decide⟩

/-- C7 amended: occurrences are non-overlapping and sorted by start
offset, each spans exactly the keyword length and matches it
case-insensitively; and every zone's snippet contains the matched text
with original casing provided no character of the lowercased keyword is
whitespace (stripping can otherwise eat edge whitespace of the match, and
newline replacement can rewrite a newline inside it). -/
theorem claim_C7_amended (hay k : List Char) :
    List.Pairwise (fun p q => p.1 < q.1 ∧ p.2 ≤ q.1) (findOccurrences hay k) ∧
    (∀ s e, (s, e) ∈ findOccurrences hay k →
      e = s + k.length ∧
      ((hay.drop s).take k.length).map Char.toLower = k.map Char.toLower) ∧
    ((∀ c ∈ k, wsChar c.toLower = false) →
      ∀ s e, (s, e) ∈ findOccurrences hay k →
        containsSub (textSnippet hay s e) ((hay.drop s).take k.length) = true ∧
        containsSub (jsSnippet hay s e) ((hay.drop s).take k.length) = true ∧
        containsSub (commentSnippet hay s e) ((hay.drop s).take k.length) = true) := by
  refine ⟨findAux_pairwise hay k (hay.length + 1) 0, ?_, ?_⟩
  · intro s e hmem
    obtain ⟨-, he, -, hpre⟩ := findAux_sound hay k (hay.length + 1) 0 s e hmem
    exact ⟨he, (ciPrefix_sound k (hay.drop s) hpre).2⟩
  · intro hk s e hmem
    exact snippet_contains hay k s e hk hmem

/-- C7 amended witness: the containment law applied to the occurrence of
"key" inside "xKEYz" — the snippet contains "KEY" with its original
casing. -/
theorem claim_C7_amended_witness :
    (1, 4) ∈ findOccurrences ("xKEYz".toList) ("key".toList) ∧
    (∀ c ∈ ("key".toList), wsChar c.toLower = false) ∧
    containsSub (textSnippet ("xKEYz".toList) 1 4)
      ((("xKEYz".toList).drop 1).take ("key".toList).length) = true :=
  ⟨by decide, by decide,
   ((claim_C7_amended ("xKEYz".toList) ("key".toList)).2.2 (by decide) 1 4 (by decide)).1⟩

/-- C6 counterexample: for keyword "k" inside comment "a\nb k" the code
emits the comment-zone snippet "...a\nb k..." — the newline run is not
collapsed to a space — which differs from the snippet the specification's
words prescribe ("...a b k..."). -/
theorem claim_C6_counterexample :
    findOccurrences ['a', '\n', 'b', ' ', 'k'] ['k'] = [(4, 5)] ∧
    (extract_data ⟨none, [], [['a', '\n', 'b', ' ', 'k']]⟩ ['k'] "t" "u").map Match.snippet =
      [commentSnippet ['a', '\n', 'b', ' ', 'k'] 4 5] ∧
    commentSnippet ['a', '\n', 'b', ' ', 'k'] 4 5 ≠
      snippetPerSpec ['a', '\n', 'b', ' ', 'k'] 4 5 := by
  refine ⟨by decide, by decide, by decide⟩

/-- C6 amended: every emitted snippet is built from the haystack slice
max(0, start-30) to min(length, end+30) around a reported occurrence and
wrapped in literal ellipses, but the interior normalization is per zone:
TEXT replaces newlines by spaces over the already-collapsed body text and
does not strip; JS replaces newlines by spaces and strips edge whitespace;
COMMENT strips edge whitespace only, without collapsing runs. -/
theorem claim_C6_amended (doc : Doc) (k : List Char) (ts url : String) :
    ∀ m ∈ extract_data doc k ts url,
      ∃ hay s e, (s, e) ∈ findOccurrences hay k ∧
        ((m.matchType = MatchType.TEXT ∧ (∃ b, doc.body = some b ∧ hay = collapseWs b) ∧
            m.snippet = textSnippet hay s e) ∨
         (m.matchType = MatchType.JS ∧ (∃ sc, sc ∈ doc.scripts ∧ sc.string = some hay) ∧
            m.snippet = jsSnippet hay s e) ∨
         (m.matchType = MatchType.COMMENT ∧ hay ∈ doc.comments ∧
            m.snippet = commentSnippet hay s e)) := by
  intro m hm
  have hm' : m ∈ textZoneMatches doc k ts url ++ jsZoneMatches doc k ts url ++
      commentZoneMatches doc k ts url := hm
  rcases List.mem_append.mp hm' with hm2 | hm2
  · rcases List.mem_append.mp hm2 with hm3 | hm3
    · obtain ⟨b, se, hb, hse, hmEq⟩ := textZone_shape doc k ts url m hm3
      exact ⟨collapseWs b, se.1, se.2, Prod.mk.eta ▸ hse,
        Or.inl ⟨by rw [hmEq], ⟨b, hb, rfl⟩, by rw [hmEq]⟩⟩
    · obtain ⟨sc, content, se, hscmem, hstr, hse, hmEq⟩ := jsZone_shape doc k ts url m hm3
      exact ⟨content, se.1, se.2, Prod.mk.eta ▸ hse,
        Or.inr (Or.inl ⟨by rw [hmEq], ⟨sc, hscmem, hstr⟩, by rw [hmEq]⟩)⟩
  · obtain ⟨c, se, hcmem, hse, hmEq⟩ := commentZone_shape doc k ts url m hm2
    exact ⟨c, se.1, se.2, Prod.mk.eta ▸ hse,
      Or.inr (Or.inr ⟨by rw [hmEq], hcmem, by rw [hmEq]⟩)⟩

/-- C6 amended witness: the decomposition applied to the one match that
keyword "key" produces on body text "xkeyz". -/
theorem claim_C6_amended_witness :
    ∃ hay s e, (s, e) ∈ findOccurrences hay ("key".toList) ∧
      (((⟨"t", "u", MatchType.TEXT, "...xkeyz...".toList⟩ : Match).matchType = MatchType.TEXT ∧
          (∃ b, (⟨some ("xkeyz".toList), [], []⟩ : Doc).body = some b ∧ hay = collapseWs b) ∧
          (⟨"t", "u", MatchType.TEXT, "...xkeyz...".toList⟩ : Match).snippet =
            textSnippet hay s e) ∨
       ((⟨"t", "u", MatchType.TEXT, "...xkeyz...".toList⟩ : Match).matchType = MatchType.JS ∧
          (∃ sc, sc ∈ (⟨some ("xkeyz".toList), [], []⟩ : Doc).scripts ∧
            sc.string = some hay) ∧
          (⟨"t", "u", MatchType.TEXT, "...xkeyz...".toList⟩ : Match).snippet =
            jsSnippet hay s e) ∨
       ((⟨"t", "u", MatchType.TEXT, "...xkeyz...".toList⟩ : Match).matchType = MatchType.COMMENT ∧
          hay ∈ (⟨some ("xkeyz".toList), [], []⟩ : Doc).comments ∧
          (⟨"t", "u", MatchType.TEXT, "...xkeyz...".toList⟩ : Match).snippet =
            commentSnippet hay s e)) :=
  claim_C6_amended ⟨some ("xkeyz".toList), [], []⟩ ("key".toList) "t" "u"
    ⟨"t", "u", MatchType.TEXT, "...xkeyz...".toList⟩ (by decide)

end WayLook
